import Mathlib

/-!
Verification of the country-name reconciliation and population-weighted
aggregation pipeline of the consultancy_assessment repository.

The Python sources are shallowly embedded as executable Lean definitions:
pandas tables become lists of records, cells that may be missing become
Option values, floating-point numbers become rationals, and an operation
that raises becomes an Option-valued function returning none.  String
helpers are defined over List Char so that concrete instances evaluate
inside the kernel.
-/

namespace Pipeline

/-! ### String utilities (models of Python str operations) -/

/-- Does the pattern occur at the start of the character list? -/
def leadsWith : List Char → List Char → Bool
  | [], _ => true
  | _ :: _, [] => false
  | p :: ps, c :: cs => p == c && leadsWith ps cs

/-- Does the pattern occur somewhere in the character list?
Model of the Python substring test s2 in s1. -/
def hasSub (pat : List Char) : List Char → Bool
  | [] => leadsWith pat []
  | c :: cs => leadsWith pat (c :: cs) || hasSub pat cs

/-- Does the pattern occur at the end of the character list?
Model of a regex anchored with a dollar sign. -/
def tailsWith (pat l : List Char) : Bool :=
  leadsWith pat.reverse l.reverse

/-- ASCII lower-casing of one character, model of Python str.lower. -/
def pyCharLower (c : Char) : Char :=
  if 65 ≤ c.toNat && c.toNat ≤ 90 then Char.ofNat (c.toNat + 32) else c

/-- Lower-case a character list. -/
def pyLowerL (l : List Char) : List Char := l.map pyCharLower

/-- Model of Python str.lower on strings. -/
def pyLower (s : String) : String := String.mk (pyLowerL s.data)

/-- Whitespace test used by strip. -/
def isWs (c : Char) : Bool := c == ' ' || c == '\t' || c == '\n' || c == '\r'

/-- Remove leading and trailing whitespace, model of Python str.strip. -/
def stripL (l : List Char) : List Char :=
  ((l.dropWhile isWs).reverse.dropWhile isWs).reverse

/-- Model of Python str.strip on strings. -/
def pyStrip (s : String) : String := String.mk (stripL s.data)

/-- Substring test on strings. -/
def hasSubStr (pat s : String) : Bool := hasSub pat.data s.data

/-- Model of Python str() applied to a nullable cell: NaN prints as "nan". -/
def pyStr : Option String → String
  | none => "nan"
  | some s => s

/-! ### Country name mapping and normalizer
(source: create_country_mapping and standardize_country_names in
03_scripts/data_preparation/02_clean_merge_data.py) -/

/-- The shipped country-name mapping of create_country_mapping. -/
def countryMapping : List (String × String) :=
  [("United States of America", "United States"),
   ("USA", "United States"),
   ("US", "United States"),
   ("United Kingdom", "United Kingdom of Great Britain and Northern Ireland"),
   ("UK", "United Kingdom of Great Britain and Northern Ireland"),
   ("Russia", "Russian Federation"),
   ("South Korea", "Republic of Korea"),
   ("North Korea", "Democratic People's Republic of Korea"),
   ("Iran", "Iran (Islamic Republic of)"),
   ("Venezuela", "Venezuela (Bolivarian Republic of)"),
   ("Bolivia", "Bolivia (Plurinational State of)"),
   ("Tanzania", "United Republic of Tanzania"),
   ("Congo", "Congo"),
   ("Democratic Republic of the Congo", "Democratic Republic of the Congo"),
   ("Ivory Coast", "Côte d'Ivoire"),
   ("Cape Verde", "Cabo Verde"),
   ("Swaziland", "Eswatini"),
   ("Macedonia", "North Macedonia"),
   ("Myanmar", "Myanmar"),
   ("Burma", "Myanmar"),
   ("East Timor", "Timor-Leste"),
   ("Moldova", "Republic of Moldova"),
   ("Syria", "Syrian Arab Republic"),
   ("Laos", "Lao People's Democratic Republic"),
   ("Vietnam", "Viet Nam"),
   ("Brunei", "Brunei Darussalam"),
   ("Micronesia", "Micronesia (Federated States of)"),
   ("Palestine", "State of Palestine"),
   ("Turkey", "Türkiye")]

/-- Exact-match lookup in an association-list mapping (model of dict lookup
as performed by pandas Series.replace with a dict argument). -/
def lookupMap : List (String × String) → String → Option String
  | [], _ => none
  | (k, v) :: rest, s => if s = k then some v else lookupMap rest s

/-- Model of Series.replace(mapping) on one nullable cell: an exact key match
is replaced, everything else (including NaN) is kept. -/
def replaceCell (M : List (String × String)) : Option String → Option String
  | none => none
  | some s =>
    match lookupMap M s with
    | some t => some t
    | none => some s

/-- Model of standardize_country_names on one cell: replace through the
mapping, then astype(str) (NaN becomes "nan"), then strip whitespace. -/
def stdCell (M : List (String × String)) (c : Option String) : String :=
  pyStrip (pyStr (replaceCell M c))

/-- The normalizer on a plain (non-null) name string. -/
def normalizeName (M : List (String × String)) (s : String) : String :=
  stdCell M (some s)

/-! ### Mortality status classifier
(source: classify_status in 02_clean_merge_data.py) -/

/-- Model of classify_status: null stays null; otherwise lower-case the text,
map "achieved"/"on-track" to on-track, text containing "acceleration needed"
to off-track, and default everything else to off-track. -/
def classify_status (status : Option String) : Option String :=
  match status with
  | none => none
  | some s =>
    let sl := pyLower s
    if sl ∈ (["achieved", "on-track"] : List String) then some "on-track"
    else if hasSubStr "acceleration needed" sl then some "off-track"
    else some "off-track"

/-! ### Aggregate filter
(source: filter_individual_countries in 02_clean_merge_data.py).
The regex search with case=False is modelled pattern by pattern on the
lower-cased name: a dollar anchor becomes a suffix test, a dot becomes an
arbitrary-character slot, the SDGRC pattern becomes a bracketed search, and
every other pattern is a plain substring test. -/

/-- Existence of a match of the regex for a parenthesised SDGRC code:
an opening bracket, then "sdgrc", then a closing bracket, in order. -/
def matchSDGRC (l : List Char) : Bool :=
  match (l.dropWhile (fun c => !(c == '('))) with
  | [] => false
  | _ :: rest => matchSDGRCAfter rest
where
  /-- After the opening bracket: find "sdgrc" and then a closing bracket. -/
  matchSDGRCAfter : List Char → Bool
  | [] => false
  | c :: cs =>
    if leadsWith "sdgrc".data (c :: cs) then ((c :: cs).drop 5).contains ')'
    else matchSDGRCAfter cs

/-- Existence of a match of the regex with a single wildcard between
"land" and "locked". -/
def matchLandLocked : List Char → Bool
  | [] => false
  | c :: cs =>
    (leadsWith "land".data (c :: cs) &&
      decide (5 ≤ (c :: cs).length) &&
      leadsWith "locked".data ((c :: cs).drop 5)) ||
    matchLandLocked cs

/-- The plain-substring regional patterns, lower-cased. -/
def plainPatterns : List String :=
  ["america", "world", "developed", "developing", "least developed",
   "small island", "sub-saharan", "northern africa", "eastern africa",
   "western africa", "middle africa", "southern africa", "eastern asia",
   "south-eastern asia", "southern asia", "western asia", "central asia",
   "eastern europe", "northern europe", "southern europe", "western europe",
   "caribbean", "central america", "south america", "northern america",
   "oceania", "polynesia", "melanesia", "micronesia", "more developed",
   "less developed", "high income", "upper middle income",
   "lower middle income", "low income"]

/-- Does the (already standardized) name match any regional-aggregate
pattern, case-insensitively? -/
def regionalMatch (s : String) : Bool :=
  let l := pyLowerL s.data
  matchSDGRC l || tailsWith "africa".data l || tailsWith "asia".data l ||
    tailsWith "europe".data l || matchLandLocked l ||
    plainPatterns.any (fun p => hasSub p.data l)

/-! ### Stable insertion sort
Model of a stable sort-by-key, used for the most-recent-year reduction of
clean_unicef_data and for the pandas median. -/

/-- Insert an element into a list, before the first element it compares
less-or-equal to. -/
def insertBy (le : α → α → Bool) (x : α) : List α → List α
  | [] => [x]
  | y :: ys => if le x y then x :: y :: ys else y :: insertBy le x ys

/-- Stable insertion sort by a comparison. -/
def isortBy (le : α → α → Bool) : List α → List α
  | [] => []
  | x :: xs => insertBy le x (isortBy le xs)

/-! ### Coverage aggregator
(source: calculate_population_weighted_coverage in
03_scripts/analysis/01_calculate_coverage.py) -/

/-- One row of the merged health dataset consumed by the aggregator. -/
structure MRow where
  country : String
  status : Option String
  anc4 : Option ℚ
  sba : Option ℚ
  births : Option ℚ
  deriving DecidableEq, Repr

/-- The two coverage indicators. -/
inductive Ind where
  | ANC4
  | SBA
  deriving DecidableEq, Repr

/-- The indicator column of a row. -/
def indVal : Ind → MRow → Option ℚ
  | Ind.ANC4, r => r.anc4
  | Ind.SBA, r => r.sba

/-- The filtered subset: matching track status, non-null indicator value,
non-null births. -/
def covSubset (df : List MRow) (ind : Ind) (track : String) : List MRow :=
  df.filter (fun r =>
    r.status == some track && (indVal ind r).isSome && r.births.isSome)

/-- Sum of signed births over a subset (the total_births of the source). -/
def sumW (sub : List MRow) : ℚ :=
  (sub.map (fun r => r.births.getD 0)).sum

/-- Sum of absolute births over a subset (the weighting denominator). -/
def sumAbsW (sub : List MRow) : ℚ :=
  (sub.map (fun r => |r.births.getD 0|)).sum

/-- Sum of indicator value times absolute births (the weighting numerator). -/
def sumVW (ind : Ind) (sub : List MRow) : ℚ :=
  (sub.map (fun r => (indVal ind r).getD 0 * |r.births.getD 0|)).sum

/-- The indicator values of a subset. -/
def valsOf (ind : Ind) (sub : List MRow) : List ℚ :=
  sub.map (fun r => (indVal ind r).getD 0)

/-- Minimum of a value list (model of Series.min on a non-empty series). -/
def minVals : List ℚ → ℚ
  | [] => 0
  | v :: vs => vs.foldl min v

/-- Maximum of a value list (model of Series.max on a non-empty series). -/
def maxVals : List ℚ → ℚ
  | [] => 0
  | v :: vs => vs.foldl max v

/-- Median of a value list (model of Series.median on a non-empty series):
sort, then take the middle element, or the mean of the two middles. -/
def medianVals (vals : List ℚ) : ℚ :=
  let s := isortBy (fun a b => decide (a ≤ b)) vals
  let n := s.length
  if n % 2 = 1 then s.getD (n / 2) 0
  else (s.getD (n / 2 - 1) 0 + s.getD (n / 2) 0) / 2

/-- The summary dictionary returned by the aggregator.  A numeric field that
the source sets to np.nan is modelled as none. -/
structure CovSummary where
  track_status : String
  indicator : Ind
  n_countries : ℕ
  total_births : Option ℚ
  weighted_coverage : Option ℚ
  min_coverage : Option ℚ
  max_coverage : Option ℚ
  median_coverage : Option ℚ
  countries : List String
  deriving DecidableEq, Repr

/-- Model of calculate_population_weighted_coverage.  The empty subset
returns the sentinel summary (note the source puts the number 0, not NaN,
in total_births).  A non-empty subset whose absolute weights sum to zero
makes np.average raise ZeroDivisionError, modelled as none. -/
def calcCoverage (df : List MRow) (ind : Ind) (track : String) :
    Option CovSummary :=
  let sub := covSubset df ind track
  if sub = [] then
    some ⟨track, ind, 0, some 0, none, none, none, none, []⟩
  else if sumAbsW sub = 0 then
    none
  else
    some ⟨track, ind, sub.length, some (sumW sub),
      some (sumVW ind sub / sumAbsW sub),
      some (minVals (valsOf ind sub)), some (maxVals (valsOf ind sub)),
      some (medianVals (valsOf ind sub)), sub.map (fun r => r.country)⟩

/-! ### Health-indicator cleaner
(source: clean_unicef_data in 02_clean_merge_data.py) -/

/-- One raw long-format UNICEF record. -/
structure URec0 where
  area : Option String
  indicator : Option String
  year : Int
  value : Option ℚ
  deriving DecidableEq, Repr

/-- One record after the indicator relabelling step. -/
structure URecC where
  area : Option String
  indClean : String
  year : Int
  value : Option ℚ
  deriving DecidableEq, Repr

/-- TIME_PERIOD between 2018 and 2022, inclusive. -/
def yearOK (r : URec0) : Bool :=
  decide (2018 ≤ r.year) && decide (r.year ≤ 2022)

/-- The indicator mask: a regex search for "Antenatal care 4+" (one or more
final fours, so a match exists exactly when "Antenatal care 4" occurs) or
"Skilled birth attendant"; a null indicator gives false (na=False). -/
def indMask (r : URec0) : Bool :=
  match r.indicator with
  | none => false
  | some s => hasSubStr "Antenatal care 4" s || hasSubStr "Skilled birth attendant" s

/-- The relabelling: the literal text "Antenatal care 4+" inside str(x)
gives ANC4, anything else SBA. -/
def relabel (r : URec0) : URecC :=
  ⟨r.area,
   if hasSubStr "Antenatal care 4+" (pyStr r.indicator) then "ANC4" else "SBA",
   r.year, r.value⟩

/-- The prepared table: year filter, indicator filter, relabelling. -/
def preparedU (l : List URec0) : List URecC :=
  ((l.filter yearOK).filter indMask).map relabel

/-- Sort-by-year comparison. -/
def yle (a b : URecC) : Bool := decide (a.year ≤ b.year)

/-- The groupby key of the reduction. -/
def ukey (r : URecC) : Option String × String := (r.area, r.indClean)

/-- Model of groupby(...).tail(1): keep a row exactly when no later row
shares its key. -/
def lastPerGroup (key : α → κ) [BEq κ] : List α → List α
  | [] => []
  | x :: xs =>
    if xs.any (fun y => key y == key x) then lastPerGroup key xs
    else x :: lastPerGroup key xs

/-- The contract of sort_values(TIME_PERIOD): the output is some
permutation of the input that is sorted by year.  The default sort kind
(quicksort) is documented as unstable, so the relative order of rows with
equal years is unspecified; the sort is therefore modelled as this
relation on outcomes rather than as one fixed function. -/
def IsYearSortOf (L S : List URecC) : Prop :=
  L.Perm S ∧ S.Pairwise (fun a b => yle a b = true)

/-- The rest of the most-recent-year reduction, applied to a sort outcome:
keep the last row of each (country, indicator) group; groupby drops null
keys. -/
def recentFrom (S : List URecC) : List URecC :=
  (lastPerGroup ukey S).filter (fun r => r.area.isSome)

/-- The prepared records of one (country, indicator) group, in input order. -/
def groupCI (l : List URec0) (c i : String) : List URecC :=
  (preparedU l).filter (fun r => r.area == some c && r.indClean == i)

/-- Largest year occurring in a group. -/
def maxYearOf : List URecC → Int
  | [] => 0
  | r :: rs => rs.foldl (fun m x => max m x.year) r.year

/-! ### Population cleaner
(source: clean_population_data in 02_clean_merge_data.py) -/

/-- A spreadsheet cell: a number, a piece of text, or missing.  Text cells
are modelled as non-numeric (pd.to_numeric turns them into null), and only
text or missing cells are modelled in the country column. -/
inductive PyVal where
  | num (q : ℚ)
  | str (s : String)
  | na
  deriving DecidableEq, Repr

/-- A wide demographic row: named cells. -/
def getCell (r : List (String × PyVal)) (c : String) : PyVal :=
  match r.find? (fun kv => kv.1 == c) with
  | some kv => kv.2
  | none => PyVal.na

/-- The projections sheet as loaded: column names and rows. -/
structure PopTable where
  cols : List String
  rows : List (List (String × PyVal))
  deriving Repr

/-- Case-insensitive search for any of the given terms in a column name. -/
def hasAnyTerm (c : String) (terms : List String) : Bool :=
  terms.any (fun t => hasSubStr t (pyLower c))

/-- The country column: first name containing country/region/area,
else the first column. -/
def findCountryCol (cols : List String) : String :=
  (cols.find? (fun c => hasAnyTerm c ["country", "region", "area"])).getD
    (cols.headD "")

/-- The births column: first name containing "births", else the first
containing "birth" or "natality". -/
def findBirthsCol (cols : List String) : Option String :=
  match cols.find? (fun c => hasSubStr "births" (pyLower c)) with
  | some c => some c
  | none => cols.find? (fun c => hasSubStr "birth" (pyLower c) ||
      hasSubStr "natality" (pyLower c))

/-- The Year == 2022 comparison on a cell. -/
def cellEq2022 : PyVal → Bool
  | PyVal.num q => q == 2022
  | _ => false

/-- Model of pd.to_numeric(errors=coerce) on a cell. -/
def toNumeric : PyVal → Option ℚ
  | PyVal.num q => some q
  | _ => none

/-- The country cell as a nullable string. -/
def getStrCell : PyVal → Option String
  | PyVal.str s => some s
  | _ => none

/-- Model of clean_population_data: filter to the 2022 rows, select the
country and births columns, coerce births to numeric and drop nulls.  When
no births column is found, return an empty table and a raised warning flag
(the second component). -/
def clean_population_data (t : PopTable) :
    List (Option String × ℚ) × Bool :=
  let countryCol := findCountryCol t.cols
  let rows22 := t.rows.filter (fun r => cellEq2022 (getCell r "Year"))
  match findBirthsCol t.cols with
  | none => ([], true)
  | some bc =>
    (rows22.filterMap (fun r =>
      match toNumeric (getCell r bc) with
      | none => none
      | some q => some (getStrCell (getCell r countryCol), q)), false)

/-! ### Merge engine
(source: merge_datasets in 02_clean_merge_data.py) -/

/-- Health payload of a wide UNICEF row: the nullable ANC4 and SBA values. -/
abbrev UPay := Option ℚ × Option ℚ

/-- Mortality payload: ISO3 code and binary status, both nullable. -/
abbrev MPay := Option String × Option String

/-- Apply standardize_country_names to a table: the country column becomes
a plain string ("nan" for a null name). -/
def stdTable (M : List (String × String)) (t : List (Option String × α)) :
    List (String × α) :=
  t.map (fun r => (stdCell M r.1, r.2))

/-- Apply filter_individual_countries to a standardized table. -/
def filterTable (t : List (String × α)) : List (String × α) :=
  t.filter (fun r => !(regionalMatch r.1))

/-- Inner join of two keyed tables on the key. -/
def innerJoin (A : List (String × α)) (B : List (String × β)) :
    List (String × α × β) :=
  A.flatMap (fun a => (B.filter (fun b => b.1 == a.1)).map (fun b => (a.1, a.2, b.2)))

/-- The result of merge_datasets: the population join is skipped when the
cleaned population table is empty, so the result then lacks births. -/
inductive MergeOut where
  | withPop (rows : List (String × (MPay × UPay) × ℚ))
  | noPop (rows : List (String × MPay × UPay))
  deriving Repr

/-- Number of rows of the merged result. -/
def rowCount : MergeOut → ℕ
  | MergeOut.withPop rows => rows.length
  | MergeOut.noPop rows => rows.length

/-- Model of merge_datasets: standardize and filter the three tables, join
mortality with UNICEF, then join with population only when the population
table is non-empty. -/
def merge_datasets (unicef : List (Option String × UPay))
    (population : List (Option String × ℚ))
    (mortality : List (Option String × MPay)) : MergeOut :=
  let u := filterTable (stdTable countryMapping unicef)
  let p := filterTable (stdTable countryMapping population)
  let m := filterTable (stdTable countryMapping mortality)
  let merged1 := innerJoin m u
  if 0 < p.length then MergeOut.withPop (innerJoin merged1 p)
  else MergeOut.noPop merged1

/-! ### Helper lemmas -/

/-- A value produced by the mapping lookup is one of the mapping targets. -/
theorem lookup_mem_values (M : List (String × String)) (s t : String)
    (h : lookupMap M s = some t) : t ∈ M.map Prod.snd := by
  induction M with
  | nil => simp [lookupMap] at h
  | cons kv rest ih =>
    obtain ⟨k, v⟩ := kv
    simp only [lookupMap] at h
    split at h
    · cases h
      simp
    · simpa using Or.inr (ih h)

/-- Every stripped mapping target is a fixed point of the normalizer. -/
theorem targets_fixed :
    ∀ t ∈ countryMapping.map Prod.snd,
      normalizeName countryMapping (pyStrip t) = pyStrip t := by decide

/-- A left fold with min is at most its initial value. -/
theorem foldl_min_le_init (vs : List ℚ) (v : ℚ) : vs.foldl min v ≤ v := by
  induction vs generalizing v with
  | nil => exact le_refl v
  | cons a as ih => exact le_trans (ih (min v a)) (min_le_left v a)

/-- A left fold with min is at most every list element. -/
theorem foldl_min_le_mem (vs : List ℚ) (x : ℚ) :
    ∀ v, x ∈ vs → vs.foldl min v ≤ x := by
  induction vs with
  | nil => intro v hx; cases hx
  | cons a as ih =>
    intro v hx
    rcases List.mem_cons.mp hx with h | h
    · subst h
      exact le_trans (foldl_min_le_init as (min v x)) (min_le_right v x)
    · exact ih (min v a) h

/-- minVals bounds every element from below. -/
theorem minVals_le (l : List ℚ) (x : ℚ) (hx : x ∈ l) : minVals l ≤ x := by
  match l, hx with
  | v :: vs, hx =>
    rcases List.mem_cons.mp hx with h | h
    · subst h; exact foldl_min_le_init vs x
    · exact foldl_min_le_mem vs x v h

/-- A left fold with max is at least its initial value. -/
theorem le_foldl_max_init (vs : List ℚ) (v : ℚ) : v ≤ vs.foldl max v := by
  induction vs generalizing v with
  | nil => exact le_refl v
  | cons a as ih => exact le_trans (le_max_left v a) (ih (max v a))

/-- A left fold with max is at least every list element. -/
theorem le_foldl_max_mem (vs : List ℚ) (x : ℚ) :
    ∀ v, x ∈ vs → x ≤ vs.foldl max v := by
  induction vs with
  | nil => intro v hx; cases hx
  | cons a as ih =>
    intro v hx
    rcases List.mem_cons.mp hx with h | h
    · subst h
      exact le_trans (le_max_right v x) (le_foldl_max_init as (max v x))
    · exact ih (max v a) h

/-- maxVals bounds every element from above. -/
theorem le_maxVals (l : List ℚ) (x : ℚ) (hx : x ∈ l) : x ≤ maxVals l := by
  match l, hx with
  | v :: vs, hx =>
    rcases List.mem_cons.mp hx with h | h
    · subst h; exact le_foldl_max_init vs x
    · exact le_foldl_max_mem vs x v h

/-- Lower bound for the weighted numerator: a uniform lower bound on the
indicator values scales the absolute-weight sum. -/
theorem sumVW_ge (ind : Ind) (sub : List MRow) (m : ℚ)
    (hm : ∀ r ∈ sub, m ≤ (indVal ind r).getD 0) :
    m * sumAbsW sub ≤ sumVW ind sub := by
  induction sub with
  | nil => simp [sumAbsW, sumVW]
  | cons r rs ih =>
    simp only [sumAbsW, sumVW, List.map_cons, List.sum_cons] at *
    rw [mul_add]
    exact add_le_add
      (mul_le_mul_of_nonneg_right (hm r (List.mem_cons_self r rs)) (abs_nonneg _))
      (ih (fun x hx => hm x (List.mem_cons_of_mem r hx)))

/-- Upper bound for the weighted numerator: a uniform upper bound on the
indicator values scales the absolute-weight sum. -/
theorem sumVW_le (ind : Ind) (sub : List MRow) (M : ℚ)
    (hM : ∀ r ∈ sub, (indVal ind r).getD 0 ≤ M) :
    sumVW ind sub ≤ M * sumAbsW sub := by
  induction sub with
  | nil => simp [sumAbsW, sumVW]
  | cons r rs ih =>
    simp only [sumAbsW, sumVW, List.map_cons, List.sum_cons] at *
    rw [mul_add]
    exact add_le_add
      (mul_le_mul_of_nonneg_right (hM r (List.mem_cons_self r rs)) (abs_nonneg _))
      (ih (fun x hx => hM x (List.mem_cons_of_mem r hx)))

/-- The length of an inner join is the sum over the left rows of the
number of right rows sharing the key. -/
theorem innerJoin_length (A : List (String × α)) (B : List (String × β)) :
    (innerJoin A B).length =
      (A.map (fun a => (B.filter (fun b => b.1 == a.1)).length)).sum := by
  simp [innerJoin, List.length_flatMap, Function.comp_def]

/-- With pairwise-distinct keys, at most one row matches any key. -/
theorem filter_key_len_le_one (B : List (String × β))
    (h : (B.map Prod.fst).Nodup) (k : String) :
    (B.filter (fun b => b.1 == k)).length ≤ 1 := by
  induction B with
  | nil => simp
  | cons b bs ih =>
    rw [List.map_cons, List.nodup_cons] at h
    rw [List.filter_cons]
    by_cases hb : b.1 == k
    · have hnil : bs.filter (fun x => x.1 == k) = [] := by
        rw [List.filter_eq_nil_iff]
        intro x hx hxk
        apply h.1
        have h1 : x.1 = k := by simpa using hxk
        have h2 : b.1 = k := by simpa using hb
        rw [h2, ← h1]
        exact List.mem_map_of_mem Prod.fst hx
      simp [hb, hnil]
    · simp only [hb, if_false, Bool.false_eq_true]
      exact ih h.2

/-- Distinct right keys bound the join by the left length. -/
theorem innerJoin_le_left (A : List (String × α)) (B : List (String × β))
    (h : (B.map Prod.fst).Nodup) : (innerJoin A B).length ≤ A.length := by
  rw [innerJoin_length]
  have := List.sum_le_card_nsmul
    (A.map (fun a => (B.filter (fun b => b.1 == a.1)).length)) 1
    (by
      intro x hx
      obtain ⟨a, _, rfl⟩ := List.mem_map.mp hx
      exact filter_key_len_le_one B h a.1)
  simpa using this

/-- Join lengths agree when the per-key match counts agree. -/
theorem innerJoin_length_congr (A : List (String × α))
    (B B' : List (String × β))
    (h : ∀ a ∈ A, (B.filter (fun b => b.1 == a.1)).length =
      (B'.filter (fun b => b.1 == a.1)).length) :
    (innerJoin A B).length = (innerJoin A B').length := by
  rw [innerJoin_length, innerJoin_length]
  exact congrArg List.sum (List.map_congr_left h)

/-- Distinct left keys bound the join by the right length. -/
theorem innerJoin_le_right (A : List (String × α)) :
    ∀ (B : List (String × β)), (A.map Prod.fst).Nodup →
      (innerJoin A B).length ≤ B.length := by
  induction A with
  | nil => intro B _; simp [innerJoin]
  | cons a as ih =>
    intro B h
    rw [List.map_cons, List.nodup_cons] at h
    have key : (innerJoin (a :: as) B).length =
        (B.filter (fun b => b.1 == a.1)).length + (innerJoin as B).length := by
      simp [innerJoin, List.flatMap_cons]
    have hcong : (innerJoin as B).length =
        (innerJoin as (B.filter (fun b => !(b.1 == a.1)))).length := by
      apply innerJoin_length_congr
      intro x hx
      rw [List.filter_filter]
      apply congrArg List.length
      apply List.filter_congr
      intro b _
      by_cases hbx : b.1 == x.1
      · have hx1 : b.1 = x.1 := by simpa using hbx
        have hxa : ¬(b.1 == a.1) = true := by
          simp only [beq_iff_eq]
          intro hba
          exact h.1 (by
            rw [← hba, hx1]
            exact List.mem_map_of_mem Prod.fst hx)
        simp [hbx, hxa]
      · simp [hbx]
    have hsplit := List.length_eq_length_filter_add
      (l := B) (fun b => b.1 == a.1)
    have hrec := ih (B.filter (fun b => !(b.1 == a.1))) h.2
    omega

/-- The keys of an inner join all come from the left table. -/
theorem innerJoin_keys_sub (A : List (String × α)) (B : List (String × β)) :
    ∀ x ∈ (innerJoin A B).map Prod.fst, x ∈ A.map Prod.fst := by
  intro x hx
  rw [List.mem_map] at hx
  obtain ⟨p, hp, rfl⟩ := hx
  simp only [innerJoin, List.mem_flatMap] at hp
  obtain ⟨a, ha, hpa⟩ := hp
  rw [List.mem_map] at hpa
  obtain ⟨b, _, rfl⟩ := hpa
  exact List.mem_map_of_mem Prod.fst ha

/-- Inner joins of tables with distinct keys have distinct keys. -/
theorem innerJoin_keys_nodup (A : List (String × α)) (B : List (String × β))
    (hA : (A.map Prod.fst).Nodup) (hB : (B.map Prod.fst).Nodup) :
    ((innerJoin A B).map Prod.fst).Nodup := by
  induction A with
  | nil => simp [innerJoin]
  | cons a as ih =>
    rw [List.map_cons, List.nodup_cons] at hA
    have key : (innerJoin (a :: as) B).map Prod.fst =
        ((B.filter (fun b => b.1 == a.1)).map (fun _ => a.1)) ++
          (innerJoin as B).map Prod.fst := by
      simp [innerJoin, List.flatMap_cons, List.map_map, Function.comp_def]
    rw [key]
    apply List.Nodup.append
    · cases hfl : B.filter (fun b => b.1 == a.1) with
      | nil => simp
      | cons b bs =>
        have hlen := filter_key_len_le_one B hB a.1
        rw [hfl] at hlen
        have hbs : bs = [] := by
          simp only [List.length_cons] at hlen
          exact List.length_eq_zero.mp (by omega)
        subst hbs
        simp
    · exact ih hA.2
    · intro x hx1 hx2
      obtain ⟨_, _, rfl⟩ := List.mem_map.mp hx1
      exact hA.1 (innerJoin_keys_sub as B _ hx2)

/-- Membership through insertBy. -/
theorem mem_insertBy (le : α → α → Bool) (x : α) (l : List α) (a : α) :
    a ∈ insertBy le x l ↔ a = x ∨ a ∈ l := by
  induction l with
  | nil => simp [insertBy]
  | cons y ys ih =>
    simp only [insertBy]
    by_cases h : le x y
    · simp [h]
    · simp only [h, if_false, Bool.false_eq_true, List.mem_cons, ih]
      tauto

/-- Membership through isortBy. -/
theorem mem_isortBy (le : α → α → Bool) (l : List α) (a : α) :
    a ∈ isortBy le l ↔ a ∈ l := by
  induction l with
  | nil => simp [isortBy]
  | cons x xs ih =>
    simp only [isortBy, mem_insertBy, ih, List.mem_cons]

/-- insertBy grows the length by one. -/
theorem length_insertBy (le : α → α → Bool) (x : α) (l : List α) :
    (insertBy le x l).length = l.length + 1 := by
  induction l with
  | nil => rfl
  | cons y ys ih =>
    simp only [insertBy]
    by_cases h : le x y
    · simp [h]
    · simp [h, ih]

/-- isortBy preserves the length. -/
theorem length_isortBy (le : α → α → Bool) (l : List α) :
    (isortBy le l).length = l.length := by
  induction l with
  | nil => rfl
  | cons x xs ih => simp [isortBy, length_insertBy, ih]

/-- insertBy preserves sortedness for a total, transitive comparison. -/
theorem pairwise_insertBy (le : α → α → Bool)
    (htot : ∀ a b, le a b = true ∨ le b a = true)
    (htrans : ∀ a b c, le a b = true → le b c = true → le a c = true)
    (x : α) (l : List α) (hl : l.Pairwise (fun a b => le a b = true)) :
    (insertBy le x l).Pairwise (fun a b => le a b = true) := by
  induction l with
  | nil => simp [insertBy]
  | cons y ys ih =>
    rw [List.pairwise_cons] at hl
    simp only [insertBy]
    by_cases h : le x y
    · rw [if_pos h, List.pairwise_cons]
      refine ⟨?_, List.pairwise_cons.mpr hl⟩
      intro b hb
      rcases List.mem_cons.mp hb with hby | hbys
      · subst hby; exact h
      · exact htrans x y b h (hl.1 b hbys)
    · rw [if_neg h, List.pairwise_cons]
      refine ⟨?_, ih hl.2⟩
      intro b hb
      rcases (mem_insertBy le x ys b).mp hb with hbx | hbys
      · rw [hbx]
        rcases htot x y with h1 | h1
        · exact absurd h1 h
        · exact h1
      · exact hl.1 b hbys

/-- isortBy sorts for a total, transitive comparison. -/
theorem pairwise_isortBy (le : α → α → Bool)
    (htot : ∀ a b, le a b = true ∨ le b a = true)
    (htrans : ∀ a b c, le a b = true → le b c = true → le a c = true)
    (l : List α) :
    (isortBy le l).Pairwise (fun a b => le a b = true) := by
  induction l with
  | nil => simp [isortBy]
  | cons x xs ih => exact pairwise_insertBy le htot htrans x _ ih

/-- On a sorted list, filtering commutes with insertion. -/
theorem filter_insertBy (le : α → α → Bool)
    (htrans : ∀ a b c, le a b = true → le b c = true → le a c = true)
    (p : α → Bool) (x : α) (l : List α)
    (hl : l.Pairwise (fun a b => le a b = true)) :
    (insertBy le x l).filter p =
      if p x then insertBy le x (l.filter p) else l.filter p := by
  induction l with
  | nil =>
    simp only [insertBy, List.filter_nil]
    by_cases h : p x <;> simp [h, insertBy]
  | cons y ys ih =>
    rw [List.pairwise_cons] at hl
    simp only [insertBy]
    by_cases hxy : le x y
    · rw [if_pos hxy]
      by_cases hpx : p x
      · rw [List.filter_cons, if_pos hpx, if_pos hpx]
        cases hf : (y :: ys).filter p with
        | nil => simp [insertBy]
        | cons z zs =>
          have hz : z ∈ (y :: ys).filter p := by
            rw [hf]; exact List.mem_cons_self z zs
          have hz2 := List.mem_filter.mp hz
          have hxz : le x z = true := by
            rcases List.mem_cons.mp hz2.1 with h1 | h1
            · rw [h1]; exact hxy
            · exact htrans x y z hxy (hl.1 z h1)
          simp [insertBy, hxz]
      · rw [List.filter_cons, if_neg hpx, if_neg hpx]
    · rw [if_neg hxy, List.filter_cons]
      by_cases hpy : p y
      · rw [if_pos hpy, List.filter_cons, if_pos hpy, ih hl.2]
        by_cases hpx : p x
        · rw [if_pos hpx, if_pos hpx]
          simp [insertBy, hxy]
        · rw [if_neg hpx, if_neg hpx]
      · rw [if_neg hpy, List.filter_cons, if_neg hpy, ih hl.2]

/-- Filtering commutes with the stable sort. -/
theorem filter_isortBy (le : α → α → Bool)
    (htot : ∀ a b, le a b = true ∨ le b a = true)
    (htrans : ∀ a b c, le a b = true → le b c = true → le a c = true)
    (p : α → Bool) (l : List α) :
    (isortBy le l).filter p = isortBy le (l.filter p) := by
  induction l with
  | nil => rfl
  | cons x xs ih =>
    simp only [isortBy]
    rw [filter_insertBy le htrans p x _ (pairwise_isortBy le htot htrans xs), ih]
    rw [List.filter_cons]
    by_cases hpx : p x
    · rw [if_pos hpx, if_pos hpx]
      simp [isortBy]
    · rw [if_neg hpx, if_neg hpx]

/-- A list whose elements pairwise compare below each other sorts to
itself. -/
theorem isortBy_eq_self (le : α → α → Bool) (l : List α)
    (h : ∀ a ∈ l, ∀ b ∈ l, le a b = true) : isortBy le l = l := by
  induction l with
  | nil => rfl
  | cons x xs ih =>
    simp only [isortBy]
    rw [ih (fun a ha b hb =>
      h a (List.mem_cons_of_mem x ha) b (List.mem_cons_of_mem x hb))]
    cases xs with
    | nil => rfl
    | cons y ys =>
      simp only [insertBy]
      rw [if_pos (h x (List.mem_cons_self x _) y
        (List.mem_cons_of_mem x (List.mem_cons_self y ys)))]

/-- The year comparison is total. -/
theorem yle_total (a b : URecC) : yle a b = true ∨ yle b a = true := by
  simp only [yle, decide_eq_true_eq]
  omega

/-- The year comparison is transitive. -/
theorem yle_trans (a b c : URecC) :
    yle a b = true → yle b c = true → yle a c = true := by
  simp only [yle, decide_eq_true_eq]
  omega

/-- A max-year fold dominates its initial value. -/
theorem foldl_maxY_init_le (vs : List URecC) :
    ∀ b : Int, b ≤ vs.foldl (fun m r => max m r.year) b := by
  induction vs with
  | nil => intro b; exact le_refl b
  | cons a as ih =>
    intro b
    simp only [List.foldl_cons]
    exact le_trans (le_max_left b a.year) (ih (max b a.year))

/-- A max-year fold dominates every member's year. -/
theorem foldl_maxY_mem (vs : List URecC) (x : URecC) :
    ∀ b : Int, x ∈ vs → x.year ≤ vs.foldl (fun m r => max m r.year) b := by
  induction vs with
  | nil => intro b hx; cases hx
  | cons a as ih =>
    intro b hx
    simp only [List.foldl_cons]
    rcases List.mem_cons.mp hx with h | h
    · rw [h]
      exact le_trans (le_max_right b a.year) (foldl_maxY_init_le as _)
    · exact ih (max b a.year) h

/-- Every member's year is at most the group maximum. -/
theorem le_maxYearOf_mem (s : List URecC) (r : URecC) (hr : r ∈ s) :
    r.year ≤ maxYearOf s := by
  match s, hr with
  | v :: vs, hr =>
    simp only [maxYearOf]
    rcases List.mem_cons.mp hr with h | h
    · rw [h]; exact foldl_maxY_init_le vs v.year
    · exact foldl_maxY_mem vs r v.year h

/-- A max-year fold is the initial value or some member's year. -/
theorem foldl_maxY_cases (vs : List URecC) :
    ∀ b : Int, vs.foldl (fun m r => max m r.year) b = b ∨
      ∃ x ∈ vs, vs.foldl (fun m r => max m r.year) b = x.year := by
  induction vs with
  | nil => intro b; exact Or.inl rfl
  | cons a as ih =>
    intro b
    simp only [List.foldl_cons]
    rcases ih (max b a.year) with h | ⟨x, hx, h⟩
    · rcases max_choice b a.year with hm | hm
      · exact Or.inl (by rw [h, hm])
      · exact Or.inr ⟨a, List.mem_cons_self a as, by rw [h, hm]⟩
    · exact Or.inr ⟨x, List.mem_cons_of_mem a hx, h⟩

/-- The group maximum is attained on a non-empty group. -/
theorem maxYearOf_attained (s : List URecC) (h : s ≠ []) :
    ∃ r ∈ s, r.year = maxYearOf s := by
  match s, h with
  | v :: vs, _ =>
    simp only [maxYearOf]
    rcases foldl_maxY_cases vs v.year with h1 | ⟨x, hx, h1⟩
    · exact ⟨v, List.mem_cons_self v vs, h1.symm⟩
    · exact ⟨x, List.mem_cons_of_mem v hx, h1.symm⟩

/-- Lists with the same members have the same maximum year. -/
theorem maxYearOf_congr_mem (s s' : List URecC)
    (hmem : ∀ r, r ∈ s ↔ r ∈ s') (hne : s ≠ []) (hne' : s' ≠ []) :
    maxYearOf s = maxYearOf s' := by
  obtain ⟨r, hr, hr2⟩ := maxYearOf_attained s hne
  obtain ⟨r', hr', hr2'⟩ := maxYearOf_attained s' hne'
  apply le_antisymm
  · rw [← hr2]; exact le_maxYearOf_mem s' r ((hmem r).mp hr)
  · rw [← hr2']; exact le_maxYearOf_mem s r' ((hmem r').mpr hr')

/-- Sorting a non-empty list gives a non-empty list. -/
theorem isortBy_ne_nil (le : α → α → Bool) (l : List α) (h : l ≠ []) :
    isortBy le l ≠ [] := by
  intro hcon
  have hlen := length_isortBy le l
  rw [hcon] at hlen
  exact h (List.length_eq_zero.mp hlen.symm)

/-- On a sorted list, the last element survives filtering to the maximum
year: the max-year records form a suffix. -/
theorem getLast?_filter_max (s : List URecC) :
    s.Pairwise (fun a b => yle a b = true) → s ≠ [] →
    (s.filter (fun r => r.year == maxYearOf s)).getLast? = s.getLast? := by
  induction s with
  | nil => intro _ hne; exact absurd rfl hne
  | cons x xs ih =>
    intro hs _
    cases xs with
    | nil => simp [maxYearOf]
    | cons y ys =>
      rw [List.pairwise_cons] at hs
      have hxsne : (y :: ys) ≠ [] := List.cons_ne_nil y ys
      have hxle : ∀ b ∈ y :: ys, x.year ≤ b.year := by
        intro b hb
        have := hs.1 b hb
        simpa [yle, decide_eq_true_eq] using this
      have hmax : maxYearOf (x :: y :: ys) = maxYearOf (y :: ys) := by
        apply le_antisymm
        · obtain ⟨r, hr, hr2⟩ :=
            maxYearOf_attained (x :: y :: ys) (List.cons_ne_nil _ _)
          rw [← hr2]
          rcases List.mem_cons.mp hr with h1 | h1
          · rw [h1]
            exact le_trans (hxle y (List.mem_cons_self y ys))
              (le_maxYearOf_mem _ y (List.mem_cons_self y ys))
          · exact le_maxYearOf_mem _ r h1
        · obtain ⟨r, hr, hr2⟩ := maxYearOf_attained (y :: ys) hxsne
          rw [← hr2]
          exact le_maxYearOf_mem _ r (List.mem_cons_of_mem x hr)
      rw [hmax, List.filter_cons, List.getLast?_cons_cons]
      have hfne : (y :: ys).filter
          (fun r => r.year == maxYearOf (y :: ys)) ≠ [] := by
        obtain ⟨r, hr, hr2⟩ := maxYearOf_attained (y :: ys) hxsne
        exact List.ne_nil_of_mem
          (List.mem_filter.mpr ⟨hr, by simp [hr2]⟩)
      by_cases hxm : (x.year == maxYearOf (y :: ys)) = true
      · rw [if_pos hxm]
        cases hft : (y :: ys).filter
            (fun r => r.year == maxYearOf (y :: ys)) with
        | nil => exact absurd hft hfne
        | cons f fs =>
          rw [List.getLast?_cons_cons, ← hft]
          exact ih hs.2 hxsne
      · rw [if_neg hxm]
        exact ih hs.2 hxsne

/-- lastPerGroup keeps a sublist. -/
theorem mem_lastPerGroup_sub (key : α → κ) [BEq κ] :
    ∀ l : List α, ∀ a ∈ lastPerGroup key l, a ∈ l := by
  intro l
  induction l with
  | nil => intro a ha; cases ha
  | cons x xs ih =>
    intro a ha
    simp only [lastPerGroup] at ha
    by_cases h : xs.any (fun y => key y == key x)
    · rw [if_pos h] at ha
      exact List.mem_cons_of_mem x (ih a ha)
    · rw [if_neg h] at ha
      rcases List.mem_cons.mp ha with h1 | h1
      · rw [h1]; exact List.mem_cons_self x xs
      · exact List.mem_cons_of_mem x (ih a h1)

/-- Restricting lastPerGroup to one key leaves exactly the last record with
that key. -/
theorem lastPerGroup_filter (key : α → κ) [BEq κ] [LawfulBEq κ] (k : κ) :
    ∀ l : List α,
      (lastPerGroup key l).filter (fun r => key r == k) =
        ((l.filter (fun r => key r == k)).getLast?).toList := by
  intro l
  induction l with
  | nil => rfl
  | cons x xs ih =>
    simp only [lastPerGroup]
    by_cases hany : xs.any (fun y => key y == key x)
    · rw [if_pos hany, ih, List.filter_cons]
      by_cases hk : (key x == k) = true
      · rw [if_pos hk]
        obtain ⟨y, hy, hyx⟩ := List.any_eq_true.mp hany
        have hyk : (key y == k) = true := by
          have h1 : key y = key x := by simpa using hyx
          have h2 : key x = k := by simpa using hk
          simp [h1, h2]
        have hfne : xs.filter (fun r => key r == k) ≠ [] :=
          List.ne_nil_of_mem (List.mem_filter.mpr ⟨hy, hyk⟩)
        cases hft : xs.filter (fun r => key r == k) with
        | nil => exact absurd hft hfne
        | cons f fs => rw [List.getLast?_cons_cons]
      · rw [if_neg hk]
    · rw [if_neg hany, List.filter_cons, List.filter_cons]
      by_cases hk : (key x == k) = true
      · rw [if_pos hk, if_pos hk, ih]
        have hnil : xs.filter (fun r => key r == k) = [] := by
          rw [List.filter_eq_nil_iff]
          intro y hy hyk
          apply hany
          refine List.any_eq_true.mpr ⟨y, hy, ?_⟩
          have h1 : key y = k := by simpa using hyk
          have h2 : key x = k := by simpa using hk
          simp [h1, h2]
        rw [hnil]
        rfl
      · rw [if_neg hk, if_neg hk, ih]

end Pipeline

namespace Pipeline

/-- C7: the mortality classifier maps null to null, and every non-null
input by case-insensitive match: "achieved" or "on-track" become on-track,
and all other text — including "acceleration needed" and unrecognized
strings such as "Some Other Category" — becomes off-track. -/
theorem classify_status_spec :
    classify_status none = none ∧
    (∀ s : String,
      classify_status (some s) =
        if pyLower s = "achieved" ∨ pyLower s = "on-track"
        then some "on-track" else some "off-track") ∧
    classify_status (some "Some Other Category") = some "off-track" ∧
    classify_status (some "Acceleration Needed") = some "off-track" := by
  refine ⟨rfl, ?_, by decide, by decide⟩
  intro s
  simp only [classify_status, List.mem_cons, List.not_mem_nil, or_false,
    List.mem_singleton]
  by_cases h : pyLower s = "achieved" ∨ pyLower s = "on-track"
  · simp [h]
  · simp [h]

/-- C10: standardize_country_names is total on null country names: no row
is dropped (the standardized table has the same length), a null name maps
to the literal string "nan", and "nan" then passes the aggregate filter as
an ordinary country name. -/
theorem std_total_on_null (α : Type) (M : List (String × String))
    (T : List (Option String × α)) :
    (stdTable M T).length = T.length ∧
    stdCell M none = "nan" ∧
    regionalMatch "nan" = false := by
  refine ⟨List.length_map _ _, rfl, by decide⟩

/-- C5 counterexample: normalization with the shipped mapping is not
idempotent; the input " Turkey " misses the exact-match lookup, is stripped
to "Turkey", and a second application then maps it to "Türkiye". -/
theorem normalize_not_idempotent :
    normalizeName countryMapping " Turkey " = "Turkey" ∧
    normalizeName countryMapping (normalizeName countryMapping " Turkey ") =
      "Türkiye" ∧
    ("Türkiye" : String) ≠ "Turkey" := by
  refine ⟨by decide, by decide, by decide⟩

/-- C5 amended: normalization with the shipped mapping is idempotent on
every input that carries no leading or trailing whitespace (the lookup runs
before the strip, so only whitespace-padded mapping keys break the claim). -/
theorem normalize_idempotent_on_stripped (s : String) (h : pyStrip s = s) :
    normalizeName countryMapping (normalizeName countryMapping s) =
      normalizeName countryMapping s := by
  cases hl : lookupMap countryMapping s with
  | none =>
    have h1 : normalizeName countryMapping s = s := by
      simp only [normalizeName, stdCell, replaceCell, hl, pyStr]
      exact h
    rw [h1]
    exact h1
  | some t =>
    have h1 : normalizeName countryMapping s = pyStrip t := by
      simp only [normalizeName, stdCell, replaceCell, hl, pyStr]
    have h2 : normalizeName countryMapping (pyStrip t) = pyStrip t :=
      targets_fixed t (lookup_mem_values countryMapping s t hl)
    rw [h1, h2]

/-- C5 witness: idempotence at the stripped input "Germany". -/
theorem normalize_idempotent_on_stripped_witness :
    pyStrip "Germany" = "Germany" ∧
    normalizeName countryMapping (normalizeName countryMapping "Germany") =
      normalizeName countryMapping "Germany" :=
  ⟨by decide, normalize_idempotent_on_stripped "Germany" (by decide)⟩

/-- C4 counterexample: on an empty filtered subset the aggregator returns
total_births as the number 0, not the not-a-number sentinel (modelled as
none), while the other numeric fields are the sentinel. -/
theorem calc_empty_total_births_zero :
    calcCoverage [] Ind.ANC4 "on-track" =
      some ⟨"on-track", Ind.ANC4, 0, some 0, none, none, none, none, []⟩ ∧
    (some (0 : ℚ) : Option ℚ) ≠ none := ⟨rfl, by decide⟩

/-- C4 amended: whenever the filtered subset is empty, the aggregator
returns n_countries = 0, an empty country list, total_births = 0, and the
not-a-number sentinel in weighted_coverage, min, max and median. -/
theorem calc_empty_sentinel (df : List MRow) (ind : Ind) (track : String)
    (h : covSubset df ind track = []) :
    calcCoverage df ind track =
      some ⟨track, ind, 0, some 0, none, none, none, none, []⟩ := by
  simp [calcCoverage, h]

/-- C4 witness: the sentinel at a table whose only row has the wrong
track status. -/
theorem calc_empty_sentinel_witness :
    covSubset [⟨"A", some "off-track", some 1, none, some 2⟩]
      Ind.ANC4 "on-track" = [] ∧
    calcCoverage [⟨"A", some "off-track", some 1, none, some 2⟩]
      Ind.ANC4 "on-track" =
      some ⟨"on-track", Ind.ANC4, 0, some 0, none, none, none, none, []⟩ :=
  ⟨by decide, calc_empty_sentinel _ _ _ (by decide)⟩

/-- C3: a non-empty filtered group whose births are all zero reaches
np.average with a zero weight sum, which raises ZeroDivisionError
(modelled as none) instead of returning the empty-result sentinel the
spec requires. -/
theorem calc_zero_weights_raises :
    covSubset [⟨"A", some "on-track", some 40, none, some 0⟩]
      Ind.ANC4 "on-track" ≠ [] ∧
    calcCoverage [⟨"A", some "on-track", some 40, none, some 0⟩]
      Ind.ANC4 "on-track" = none :=
  ⟨by decide, by norm_num [calcCoverage, covSubset, sumAbsW, indVal]⟩

/-- C1: on a non-empty filtered group with a non-zero absolute-weight sum
the aggregator returns the summary whose weighted coverage is
the sum of value times absolute births over the sum of absolute births,
and whose total_births is the signed sum of births. -/
theorem calc_formula (df : List MRow) (ind : Ind) (track : String)
    (h1 : covSubset df ind track ≠ [])
    (h2 : sumAbsW (covSubset df ind track) ≠ 0) :
    calcCoverage df ind track =
      some ⟨track, ind, (covSubset df ind track).length,
        some (((covSubset df ind track).map (fun r => r.births.getD 0)).sum),
        some ((((covSubset df ind track).map
            (fun r => (indVal ind r).getD 0 * |r.births.getD 0|)).sum) /
          (((covSubset df ind track).map (fun r => |r.births.getD 0|)).sum)),
        some (minVals (valsOf ind (covSubset df ind track))),
        some (maxVals (valsOf ind (covSubset df ind track))),
        some (medianVals (valsOf ind (covSubset df ind track))),
        (covSubset df ind track).map (fun r => r.country)⟩ := by
  simp only [calcCoverage, sumW, sumAbsW, sumVW]
  rw [if_neg h1, if_neg ?_]
  exact fun hc => h2 (by simpa [sumAbsW] using hc)

/-- C1 witness: a two-row on-track group where births of -5000 contributes
weight 5000 to the weighted average (which becomes 70) and -5000 to the
signed total_births (which becomes 10000). -/
theorem calc_formula_witness :
    covSubset
      [⟨"A", some "on-track", some 100, none, some (-5000)⟩,
       ⟨"B", some "on-track", some 60, none, some 15000⟩]
      Ind.ANC4 "on-track" ≠ [] ∧
    sumAbsW (covSubset
      [⟨"A", some "on-track", some 100, none, some (-5000)⟩,
       ⟨"B", some "on-track", some 60, none, some 15000⟩]
      Ind.ANC4 "on-track") ≠ 0 ∧
    calcCoverage
      [⟨"A", some "on-track", some 100, none, some (-5000)⟩,
       ⟨"B", some "on-track", some 60, none, some 15000⟩]
      Ind.ANC4 "on-track" =
      some ⟨"on-track", Ind.ANC4, 2, some 10000, some 70, some 60, some 100,
        some 80, ["A", "B"]⟩ := by
  refine ⟨by decide, by norm_num [sumAbsW, covSubset, indVal], ?_⟩
  rw [calc_formula _ Ind.ANC4 "on-track" (by decide)
    (by norm_num [sumAbsW, covSubset, indVal])]
  norm_num [covSubset, indVal, valsOf, minVals, maxVals, medianVals,
    isortBy, insertBy]

/-- C9: on every non-empty filtered group with positive total absolute
weight, the weighted coverage returned by the aggregator lies between the
minimum and the maximum of the group's indicator values. -/
theorem calc_weighted_in_range (df : List MRow) (ind : Ind) (track : String)
    (h1 : covSubset df ind track ≠ [])
    (h2 : 0 < sumAbsW (covSubset df ind track)) :
    ∃ s, calcCoverage df ind track = some s ∧
      ∃ wc mn mx, s.weighted_coverage = some wc ∧
        s.min_coverage = some mn ∧ s.max_coverage = some mx ∧
        mn ≤ wc ∧ wc ≤ mx := by
  simp only [calcCoverage]
  rw [if_neg h1, if_neg (ne_of_gt h2)]
  refine ⟨_, rfl, _, _, _, rfl, rfl, rfl, ?_, ?_⟩
  · rw [le_div_iff₀ h2]
    exact sumVW_ge ind _ _ (fun r hr =>
      minVals_le _ _ (List.mem_map_of_mem _ hr))
  · rw [div_le_iff₀ h2]
    exact sumVW_le ind _ _ (fun r hr =>
      le_maxVals _ _ (List.mem_map_of_mem _ hr))

/-- C9 witness: the two-country off-track SBA scenario with births 100 and
300 and coverage 20 and 80, whose weighted coverage 65 lies in [20, 80]. -/
theorem calc_weighted_in_range_witness :
    covSubset
      [⟨"A", some "off-track", none, some 20, some 100⟩,
       ⟨"B", some "off-track", none, some 80, some 300⟩]
      Ind.SBA "off-track" ≠ [] ∧
    0 < sumAbsW (covSubset
      [⟨"A", some "off-track", none, some 20, some 100⟩,
       ⟨"B", some "off-track", none, some 80, some 300⟩]
      Ind.SBA "off-track") ∧
    (∃ s, calcCoverage
        [⟨"A", some "off-track", none, some 20, some 100⟩,
         ⟨"B", some "off-track", none, some 80, some 300⟩]
        Ind.SBA "off-track" = some s ∧
      ∃ wc mn mx, s.weighted_coverage = some wc ∧
        s.min_coverage = some mn ∧ s.max_coverage = some mx ∧
        mn ≤ wc ∧ wc ≤ mx) := by
  have hpos : 0 < sumAbsW (covSubset
      [⟨"A", some "off-track", none, some 20, some 100⟩,
       ⟨"B", some "off-track", none, some 80, some 300⟩]
      Ind.SBA "off-track") := by
    norm_num [sumAbsW, covSubset, indVal]
  exact ⟨by decide, hpos,
    calc_weighted_in_range _ Ind.SBA "off-track" (by decide) hpos⟩

/-- C2 counterexample: with duplicated country keys the first inner join of
merge_datasets produces four rows from two-row inputs, exceeding the
minimum of the input sizes, and the final merged table exceeds the minimum
of the three filtered input sizes. -/
theorem merge_join_count_exceeds_min :
    (innerJoin
        (filterTable (stdTable countryMapping
          [(some "X", ((some "XKX" : Option String), (some "on-track" : Option String))),
           (some "X", ((some "XK2" : Option String), (some "off-track" : Option String)))]))
        (filterTable (stdTable countryMapping
          [(some "X", ((some (50 : ℚ) : Option ℚ), (none : Option ℚ))),
           (some "X", ((some (60 : ℚ) : Option ℚ), (none : Option ℚ)))]))).length = 4 ∧
    (filterTable (stdTable countryMapping
      [(some "X", ((some "XKX" : Option String), (some "on-track" : Option String))),
       (some "X", ((some "XK2" : Option String), (some "off-track" : Option String)))])).length = 2 ∧
    (filterTable (stdTable countryMapping
      [(some "X", ((some (50 : ℚ) : Option ℚ), (none : Option ℚ))),
       (some "X", ((some (60 : ℚ) : Option ℚ), (none : Option ℚ)))])).length = 2 ∧
    ¬((4 : ℕ) ≤ min 2 2) ∧
    rowCount (merge_datasets
      [(some "X", ((some (50 : ℚ) : Option ℚ), (none : Option ℚ))),
       (some "X", ((some (60 : ℚ) : Option ℚ), (none : Option ℚ)))]
      [(some "X", (5 : ℚ))]
      [(some "X", ((some "XKX" : Option String), (some "on-track" : Option String))),
       (some "X", ((some "XK2" : Option String), (some "off-track" : Option String)))]) = 4 ∧
    ¬((4 : ℕ) ≤ min (min 2 2) 1) := by
  refine ⟨by decide, by decide, by decide, by decide, by decide, by decide⟩

/-- C2 amended: when the three standardized, filtered tables carry pairwise
distinct country keys and the filtered population table is non-empty, the
first inner join of merge_datasets has at most min of its two input sizes
and the final merged table has at most min of the three input sizes. -/
theorem merge_join_bounds
    (unicef : List (Option String × UPay))
    (population : List (Option String × ℚ))
    (mortality : List (Option String × MPay))
    (hm : ((filterTable (stdTable countryMapping mortality)).map Prod.fst).Nodup)
    (hu : ((filterTable (stdTable countryMapping unicef)).map Prod.fst).Nodup)
    (hp : ((filterTable (stdTable countryMapping population)).map Prod.fst).Nodup)
    (hpne : filterTable (stdTable countryMapping population) ≠ []) :
    (innerJoin (filterTable (stdTable countryMapping mortality))
        (filterTable (stdTable countryMapping unicef))).length ≤
      min (filterTable (stdTable countryMapping mortality)).length
        (filterTable (stdTable countryMapping unicef)).length ∧
    rowCount (merge_datasets unicef population mortality) ≤
      min (min (filterTable (stdTable countryMapping mortality)).length
          (filterTable (stdTable countryMapping unicef)).length)
        (filterTable (stdTable countryMapping population)).length := by
  have h1 : (innerJoin (filterTable (stdTable countryMapping mortality))
      (filterTable (stdTable countryMapping unicef))).length ≤
      min (filterTable (stdTable countryMapping mortality)).length
        (filterTable (stdTable countryMapping unicef)).length :=
    le_min (innerJoin_le_left _ _ hu) (innerJoin_le_right _ _ hm)
  refine ⟨h1, ?_⟩
  have hplen : 0 < (filterTable (stdTable countryMapping population)).length :=
    List.length_pos.mpr hpne
  have hrc : merge_datasets unicef population mortality =
      MergeOut.withPop (innerJoin
        (innerJoin (filterTable (stdTable countryMapping mortality))
          (filterTable (stdTable countryMapping unicef)))
        (filterTable (stdTable countryMapping population))) := by
    simp only [merge_datasets]
    rw [if_pos hplen]
  rw [hrc]
  simp only [rowCount]
  apply le_min
  · exact le_trans (innerJoin_le_left _ _ hp) h1
  · exact innerJoin_le_right _ _ (innerJoin_keys_nodup _ _ hm hu)

/-- C2 witness: the join bounds at concrete duplicate-free tables. -/
theorem merge_join_bounds_witness :
    ((filterTable (stdTable countryMapping
      [(some "X", ((some "XKX" : Option String), (some "on-track" : Option String))),
       (some "Y", ((some "YYY" : Option String), (some "off-track" : Option String)))])).map
        Prod.fst).Nodup ∧
    ((filterTable (stdTable countryMapping
      [(some "X", ((some (50 : ℚ) : Option ℚ), (none : Option ℚ)))])).map Prod.fst).Nodup ∧
    ((filterTable (stdTable countryMapping
      [(some "X", (5 : ℚ)), (some "Y", (7 : ℚ))])).map Prod.fst).Nodup ∧
    filterTable (stdTable countryMapping
      [(some "X", (5 : ℚ)), (some "Y", (7 : ℚ))]) ≠ [] ∧
    ((innerJoin (filterTable (stdTable countryMapping
        [(some "X", ((some "XKX" : Option String), (some "on-track" : Option String))),
         (some "Y", ((some "YYY" : Option String), (some "off-track" : Option String)))]))
      (filterTable (stdTable countryMapping
        [(some "X", ((some (50 : ℚ) : Option ℚ), (none : Option ℚ)))]))).length ≤
      min (filterTable (stdTable countryMapping
        [(some "X", ((some "XKX" : Option String), (some "on-track" : Option String))),
         (some "Y", ((some "YYY" : Option String), (some "off-track" : Option String)))])).length
        (filterTable (stdTable countryMapping
          [(some "X", ((some (50 : ℚ) : Option ℚ), (none : Option ℚ)))])).length ∧
    rowCount (merge_datasets
        [(some "X", ((some (50 : ℚ) : Option ℚ), (none : Option ℚ)))]
        [(some "X", (5 : ℚ)), (some "Y", (7 : ℚ))]
        [(some "X", ((some "XKX" : Option String), (some "on-track" : Option String))),
         (some "Y", ((some "YYY" : Option String), (some "off-track" : Option String)))]) ≤
      min (min (filterTable (stdTable countryMapping
          [(some "X", ((some "XKX" : Option String), (some "on-track" : Option String))),
           (some "Y", ((some "YYY" : Option String), (some "off-track" : Option String)))])).length
          (filterTable (stdTable countryMapping
            [(some "X", ((some (50 : ℚ) : Option ℚ), (none : Option ℚ)))])).length)
        (filterTable (stdTable countryMapping
          [(some "X", (5 : ℚ)), (some "Y", (7 : ℚ))])).length) := by
  refine ⟨by decide, by decide, by decide, by decide, ?_⟩
  exact merge_join_bounds _ _ _ (by decide) (by decide) (by decide) (by decide)

/-- C6 counterexample: with no births column the population cleaner returns
empty and warns, but merge_datasets then skips the population join and
yields the one-row mortality-health join, not zero rows as claimed. -/
theorem pop_missing_births_not_zero_rows :
    clean_population_data
      ⟨["Region", "Year", "Population"],
       [[("Region", PyVal.str "X"), ("Year", PyVal.num 2022),
         ("Population", PyVal.num 5)]]⟩ = ([], true) ∧
    rowCount (merge_datasets
      [(some "X", ((some (50 : ℚ) : Option ℚ), (none : Option ℚ)))]
      (clean_population_data
        ⟨["Region", "Year", "Population"],
         [[("Region", PyVal.str "X"), ("Year", PyVal.num 2022),
           ("Population", PyVal.num 5)]]⟩).1
      [(some "X", ((some "XKX" : Option String), (some "on-track" : Option String)))]) = 1 ∧
    (1 : ℕ) ≠ 0 := by
  refine ⟨by decide, by decide, by decide⟩

/-- C6 amended: when no births column can be located the population cleaner
returns an empty result with the warning flag raised, and merge_datasets
then skips the population join entirely, returning the mortality-health
join (which may be non-empty and lacks births data) rather than zero rows. -/
theorem pop_missing_births (t : PopTable)
    (u : List (Option String × UPay)) (m : List (Option String × MPay))
    (h : findBirthsCol t.cols = none) :
    clean_population_data t = ([], true) ∧
    merge_datasets u (clean_population_data t).1 m =
      MergeOut.noPop (innerJoin (filterTable (stdTable countryMapping m))
        (filterTable (stdTable countryMapping u))) := by
  have h1 : clean_population_data t = ([], true) := by
    simp only [clean_population_data, h]
  refine ⟨h1, ?_⟩
  rw [h1]
  simp [merge_datasets, stdTable, filterTable]

/-- C8 counterexample: the program's sort contract does not determine the
tie-break.  sort_values uses the default unstable quicksort, so any
year-sorted permutation of the prepared rows is an admissible outcome; for
two records tied at the maximum year there is an admissible outcome whose
survivor is not the record occurring last in input order. -/
theorem unicef_tie_not_guaranteed :
    IsYearSortOf
      (preparedU
        [⟨some "X", some "Antenatal care 4+ visits", 2021, some 20⟩,
         ⟨some "X", some "Antenatal care 4+ visits", 2021, some 30⟩])
      [⟨some "X", "ANC4", 2021, some 30⟩,
       ⟨some "X", "ANC4", 2021, some 20⟩] ∧
    (recentFrom
        [⟨some "X", "ANC4", 2021, some 30⟩,
         ⟨some "X", "ANC4", 2021, some 20⟩]).filter
      (fun x => x.area == some "X" && x.indClean == "ANC4") =
      [⟨some "X", "ANC4", 2021, some 20⟩] ∧
    ((groupCI
        [⟨some "X", some "Antenatal care 4+ visits", 2021, some 20⟩,
         ⟨some "X", some "Antenatal care 4+ visits", 2021, some 30⟩]
        "X" "ANC4").filter
      (fun x => x.year == maxYearOf (groupCI
        [⟨some "X", some "Antenatal care 4+ visits", 2021, some 20⟩,
         ⟨some "X", some "Antenatal care 4+ visits", 2021, some 30⟩]
        "X" "ANC4"))).getLast? =
      some ⟨some "X", "ANC4", 2021, some 30⟩ ∧
    (⟨some "X", "ANC4", 2021, some 20⟩ : URecC) ≠
      ⟨some "X", "ANC4", 2021, some 30⟩ := by
  refine ⟨⟨by decide, by decide⟩, by decide, by decide, by decide⟩

/-- C8 amended: for every admissible outcome of the year sort (any sorted
permutation of the prepared rows, as the default unstable quicksort merely
guarantees), every (country, indicator) group with at least one in-range
record has exactly one surviving record; its year is the group's maximum
year and it is one of the group's records.  Which record survives among
several sharing the maximum year is implementation-defined. -/
theorem unicef_most_recent_any_sort (l : List URec0) (c i : String)
    (S : List URecC) (hS : IsYearSortOf (preparedU l) S)
    (h : groupCI l c i ≠ []) :
    ∃ r, (recentFrom S).filter
        (fun x => x.area == some c && x.indClean == i) = [r] ∧
      r.year = maxYearOf (groupCI l c i) ∧ r ∈ groupCI l c i := by
  obtain ⟨hperm, hsorted⟩ := hS
  have hPq : ∀ r : URecC,
      ((r.area == some c && r.indClean == i) && r.area.isSome) =
        (r.area == some c && r.indClean == i) := by
    intro r
    by_cases h1 : r.area = some c
    · simp [h1]
    · rw [beq_eq_false_iff_ne.mpr h1]
      simp
  have hPk : ∀ r : URecC,
      (ukey r == ((some c : Option String), i)) =
        (r.area == some c && r.indClean == i) := by
    intro r
    by_cases h1 : r.area = some c <;> by_cases h2 : r.indClean = i
    · simp [ukey, h1, h2]
    · have hfalse : (ukey r == ((some c : Option String), i)) = false :=
        beq_eq_false_iff_ne.mpr (by simp [ukey, Prod.ext_iff, h2])
      simp [hfalse, beq_eq_false_iff_ne.mpr h2]
    · have hfalse : (ukey r == ((some c : Option String), i)) = false :=
        beq_eq_false_iff_ne.mpr (by simp [ukey, Prod.ext_iff, h1])
      simp [hfalse, beq_eq_false_iff_ne.mpr h1]
    · have hfalse : (ukey r == ((some c : Option String), i)) = false :=
        beq_eq_false_iff_ne.mpr (by simp [ukey, Prod.ext_iff, h1])
      simp [hfalse, beq_eq_false_iff_ne.mpr h1]
  have stepA : (recentFrom S).filter
      (fun x => x.area == some c && x.indClean == i) =
      (lastPerGroup ukey S).filter
        (fun x => x.area == some c && x.indClean == i) := by
    simp only [recentFrom]
    rw [List.filter_filter]
    exact List.filter_congr (fun r _ => hPq r)
  have stepB : (lastPerGroup ukey S).filter
      (fun x => x.area == some c && x.indClean == i) =
      ((S.filter
        (fun x => x.area == some c && x.indClean == i)).getLast?).toList := by
    rw [← List.filter_congr (fun r _ => hPk r),
      lastPerGroup_filter ukey ((some c : Option String), i),
      List.filter_congr (fun r _ => hPk r)]
  have hFperm : (groupCI l c i).Perm
      (S.filter (fun x => x.area == some c && x.indClean == i)) :=
    hperm.filter _
  have hFsorted : (S.filter
      (fun x => x.area == some c && x.indClean == i)).Pairwise
      (fun a b => yle a b = true) :=
    List.Pairwise.sublist (List.filter_sublist S) hsorted
  have hFne : S.filter (fun x => x.area == some c && x.indClean == i) ≠ [] := by
    intro hcon
    apply h
    have hlen := hFperm.length_eq
    rw [hcon] at hlen
    exact List.length_eq_zero.mp hlen
  have hmax : maxYearOf
      (S.filter (fun x => x.area == some c && x.indClean == i)) =
      maxYearOf (groupCI l c i) :=
    maxYearOf_congr_mem _ _ (fun r => (hFperm.mem_iff).symm) hFne h
  have hgl := List.getLast?_eq_getLast_of_ne_nil hFne
  refine ⟨(S.filter
    (fun x => x.area == some c && x.indClean == i)).getLast hFne, ?_, ?_, ?_⟩
  · rw [stepA, stepB, hgl]
    rfl
  · have e1 := getLast?_filter_max _ hFsorted hFne
    have hFmne : (S.filter
        (fun x => x.area == some c && x.indClean == i)).filter
        (fun r => r.year == maxYearOf (S.filter
          (fun x => x.area == some c && x.indClean == i))) ≠ [] := by
      obtain ⟨x, hx, hx2⟩ := maxYearOf_attained _ hFne
      exact List.ne_nil_of_mem (List.mem_filter.mpr ⟨hx, by simp [hx2]⟩)
    have hsome : ((S.filter
        (fun x => x.area == some c && x.indClean == i)).filter
        (fun r => r.year == maxYearOf (S.filter
          (fun x => x.area == some c && x.indClean == i)))).getLast? =
        some ((S.filter
          (fun x => x.area == some c && x.indClean == i)).getLast hFne) := by
      rw [e1, hgl]
    have hglm := List.getLast?_eq_getLast_of_ne_nil hFmne
    rw [hglm] at hsome
    have hmem : (S.filter
        (fun x => x.area == some c && x.indClean == i)).getLast hFne ∈
        (S.filter (fun x => x.area == some c && x.indClean == i)).filter
          (fun r => r.year == maxYearOf (S.filter
            (fun x => x.area == some c && x.indClean == i))) := by
      rw [← Option.some.inj hsome]
      exact List.getLast_mem hFmne
    have hyr := (List.mem_filter.mp hmem).2
    rw [← hmax]
    simpa using hyr
  · exact (hFperm.mem_iff).mpr (List.getLast_mem hFne)

/-- C8 witness: the sort-agnostic reduction at a concrete table and a
concrete admissible sort outcome with a tied maximum year. -/
theorem unicef_most_recent_any_sort_witness :
    IsYearSortOf
      (preparedU
        [⟨some "X", some "Antenatal care 4+ visits", 2019, some 10⟩,
         ⟨some "X", some "Antenatal care 4+ visits", 2021, some 20⟩,
         ⟨some "X", some "Antenatal care 4+ visits", 2021, some 30⟩,
         ⟨some "X", some "Skilled birth attendant", 2020, some 40⟩,
         ⟨some "Y", some "Antenatal care 4+ visits", 2019, some 50⟩])
      [⟨some "Y", "ANC4", 2019, some 50⟩,
       ⟨some "X", "ANC4", 2019, some 10⟩,
       ⟨some "X", "SBA", 2020, some 40⟩,
       ⟨some "X", "ANC4", 2021, some 20⟩,
       ⟨some "X", "ANC4", 2021, some 30⟩] ∧
    groupCI
      [⟨some "X", some "Antenatal care 4+ visits", 2019, some 10⟩,
       ⟨some "X", some "Antenatal care 4+ visits", 2021, some 20⟩,
       ⟨some "X", some "Antenatal care 4+ visits", 2021, some 30⟩,
       ⟨some "X", some "Skilled birth attendant", 2020, some 40⟩,
       ⟨some "Y", some "Antenatal care 4+ visits", 2019, some 50⟩]
      "X" "ANC4" ≠ [] ∧
    (∃ r, (recentFrom
        [⟨some "Y", "ANC4", 2019, some 50⟩,
         ⟨some "X", "ANC4", 2019, some 10⟩,
         ⟨some "X", "SBA", 2020, some 40⟩,
         ⟨some "X", "ANC4", 2021, some 20⟩,
         ⟨some "X", "ANC4", 2021, some 30⟩]).filter
          (fun x => x.area == some "X" && x.indClean == "ANC4") = [r] ∧
      r.year = maxYearOf (groupCI
        [⟨some "X", some "Antenatal care 4+ visits", 2019, some 10⟩,
         ⟨some "X", some "Antenatal care 4+ visits", 2021, some 20⟩,
         ⟨some "X", some "Antenatal care 4+ visits", 2021, some 30⟩,
         ⟨some "X", some "Skilled birth attendant", 2020, some 40⟩,
         ⟨some "Y", some "Antenatal care 4+ visits", 2019, some 50⟩]
        "X" "ANC4") ∧
      r ∈ groupCI
        [⟨some "X", some "Antenatal care 4+ visits", 2019, some 10⟩,
         ⟨some "X", some "Antenatal care 4+ visits", 2021, some 20⟩,
         ⟨some "X", some "Antenatal care 4+ visits", 2021, some 30⟩,
         ⟨some "X", some "Skilled birth attendant", 2020, some 40⟩,
         ⟨some "Y", some "Antenatal care 4+ visits", 2019, some 50⟩]
        "X" "ANC4") :=
  ⟨⟨by decide, by decide⟩, by decide,
    unicef_most_recent_any_sort _ "X" "ANC4" _
      ⟨by decide, by decide⟩ (by decide)⟩

/-- C6 witness: the skip behaviour at a concrete table with no births
column. -/
theorem pop_missing_births_witness :
    findBirthsCol ["Region", "Year", "Population"] = none ∧
    (clean_population_data
        ⟨["Region", "Year", "Population"],
         [[("Region", PyVal.str "Y"), ("Year", PyVal.num 2022),
           ("Population", PyVal.num 5)]]⟩ = ([], true) ∧
      merge_datasets
        [(some "Y", ((some (40 : ℚ) : Option ℚ), (none : Option ℚ)))]
        (clean_population_data
          ⟨["Region", "Year", "Population"],
           [[("Region", PyVal.str "Y"), ("Year", PyVal.num 2022),
             ("Population", PyVal.num 5)]]⟩).1
        [(some "Y", ((some "YYY" : Option String), (some "off-track" : Option String)))] =
        MergeOut.noPop (innerJoin
          (filterTable (stdTable countryMapping
            [(some "Y", ((some "YYY" : Option String), (some "off-track" : Option String)))]))
          (filterTable (stdTable countryMapping
            [(some "Y", ((some (40 : ℚ) : Option ℚ), (none : Option ℚ)))])))) :=
  ⟨by decide, pop_missing_births _ _ _ (by decide)⟩

end Pipeline
